import Mathlib

/-!
# Verification of the gw2-mcp caching and wiki-search layer

Shallow embedding of the wiki content fetcher (`internal/wiki`), the cache
manager (`internal/cache`) and the string helpers they use, together with
theorems settling the specification claims about them.

Machine integers of the source are modelled as `Nat` (all quantities involved
are sizes, counts, ids and timestamps that the program never makes negative,
and no arithmetic in the modelled code can overflow ranges of interest).
Go strings are modelled as `String` / `List Char`.
-/

deriving instance DecidableEq for Except

namespace GW2

/-! ## Go standard-library string helpers (modelled)

`unicode.IsSpace`, `strings.TrimSpace`, `strings.ToLower` (restricted to the
ASCII letters, the only case mapping the verified inputs exercise),
`strings.ReplaceAll` and `strings.Contains`, all specialised to the ways the
repository calls them. -/

/-- The Unicode white-space set tested by Go's `unicode.IsSpace`. -/
def isGoSpace (c : Char) : Bool :=
  c = ' ' || c = '\t' || c = '\n' || (0x0B ≤ c.toNat && c.toNat ≤ 0x0D) ||
  c.toNat = 0x85 || c.toNat = 0xA0 || c.toNat = 0x1680 ||
  (0x2000 ≤ c.toNat && c.toNat ≤ 0x200A) ||
  c.toNat = 0x2028 || c.toNat = 0x2029 || c.toNat = 0x202F ||
  c.toNat = 0x205F || c.toNat = 0x3000

/-- `strings.TrimSpace`: drop white space from both ends. -/
def goTrimSpace (s : List Char) : List Char :=
  ((s.dropWhile isGoSpace).reverse.dropWhile isGoSpace).reverse

/-- `strings.ToLower` on one character (simple case mapping, ASCII range). -/
def goToLower (c : Char) : Char :=
  if 'A' ≤ c ∧ c ≤ 'Z' then Char.ofNat (c.toNat + 32) else c

/-- `strings.ToLower` on a whole string. -/
def goToLowerStr (s : List Char) : List Char := s.map goToLower

/-- Fuel-driven core of `strings.ReplaceAll`: replace non-overlapping
occurrences of `p` by `r`, scanning left to right, never rescanning a
replacement.  Fuel bounds the number of scanning steps; `replaceAll` supplies
`s.length`, which always suffices.  (The repository only ever calls
`ReplaceAll` with a non-empty pattern; the empty pattern takes the
no-match branch here.) -/
def replaceAllAux (p r : List Char) : Nat → List Char → List Char
  | 0, s => s
  | _ + 1, [] => []
  | n + 1, c :: rest =>
    if !p.isEmpty && p.isPrefixOf (c :: rest) then
      r ++ replaceAllAux p r n ((c :: rest).drop p.length)
    else
      c :: replaceAllAux p r n rest

/-- `strings.ReplaceAll p -> r` on `s`. -/
def replaceAll (p r s : List Char) : List Char :=
  replaceAllAux p r s.length s

/-- `strings.Contains s p` (does `p` occur as a contiguous substring?). -/
def containsSub (p : List Char) : List Char → Bool
  | [] => p.isEmpty
  | c :: rest => p.isPrefixOf (c :: rest) || containsSub p rest

/-- Fuel-driven core of the `for strings.Contains(cleaned, "  ")` loop of
`cleanSnippet`: repeatedly replace double spaces by single ones until none
remain.  Each productive iteration strictly shortens the string, so fuel
`t.length` (supplied by `collapseSpaces`) always reaches the fixed point. -/
def collapseAux : Nat → List Char → List Char
  | 0, t => t
  | n + 1, t =>
    if containsSub [' ', ' '] t then
      collapseAux n (replaceAll [' ', ' '] [' '] t)
    else t

/-- The multiple-space removal loop of `Client.cleanSnippet`. -/
def collapseSpaces (t : List Char) : List Char :=
  collapseAux t.length t

/-- The `<span class="searchmatch">` opening wrapper tag. -/
def spanOpenTag : List Char := "<span class=\"searchmatch\">".data

/-- The `</span>` closing wrapper tag. -/
def spanCloseTag : List Char := "</span>".data

/-- `Client.cleanSnippet` on character lists: strip the match-highlighting
wrapper tags, decode the four HTML entities, trim, turn newlines and tabs
into spaces, then collapse runs of spaces. -/
def cleanSnippetL (s : List Char) : List Char :=
  let c1 := replaceAll spanOpenTag [] s
  let c2 := replaceAll spanCloseTag [] c1
  let c3 := replaceAll "&quot;".data "\"".data c2
  let c4 := replaceAll "&amp;".data "&".data c3
  let c5 := replaceAll "&lt;".data "<".data c4
  let c6 := replaceAll "&gt;".data ">".data c5
  let t0 := goTrimSpace c6
  let t1 := replaceAll "\n".data " ".data t0
  let t2 := replaceAll "\t".data " ".data t1
  collapseSpaces t2

/-- `Client.cleanSnippet` (string interface). -/
def cleanSnippet (s : String) : String := ⟨cleanSnippetL s.data⟩

/-! ## URL escaping (`net/url`, modelled for single-byte characters) -/

/-- Upper-case hexadecimal digit. -/
def hexDigit (n : Nat) : Char :=
  if n < 10 then Char.ofNat ('0'.toNat + n) else Char.ofNat ('A'.toNat + (n - 10))

/-- `%XX` percent-encoding of one byte-sized character. -/
def percentEncode (c : Char) : List Char :=
  ['%', hexDigit (c.toNat / 16 % 16), hexDigit (c.toNat % 16)]

/-- Characters `net/url.shouldEscape` never escapes in any mode. -/
def isUnreservedURL (c : Char) : Bool :=
  c.isAlphanum || c = '-' || c = '_' || c = '.' || c = '~'

/-- `net/url.QueryEscape` on one character: space becomes `+`, unreserved
characters stay, everything else is percent-encoded. -/
def goQueryEscapeChar (c : Char) : List Char :=
  if isUnreservedURL c then [c]
  else if c = ' ' then ['+']
  else percentEncode c

/-- `net/url.QueryEscape`. -/
def goQueryEscape (s : String) : String :=
  ⟨(s.data.map goQueryEscapeChar).flatten⟩

/-- `net/url.PathEscape` on one character: unreserved characters and the
sub-delimiters `$ & + : = @` stay, everything else (notably the space and
`/ ; , ?`) is percent-encoded. -/
def goPathEscapeChar (c : Char) : List Char :=
  if isUnreservedURL c then [c]
  else if c = '$' || c = '&' || c = '+' || c = ':' || c = '=' || c = '@' then [c]
  else percentEncode c

/-- `net/url.PathEscape` (the escaping the repository's URL-generation test
uses for page titles). -/
def goPathEscape (s : String) : String :=
  ⟨(s.data.map goPathEscapeChar).flatten⟩

/-! ## Data model of the wiki fetcher -/

/-- `wiki.SearchResult`: one search result.  `PageID`, `Size`, `WordCount`
are Go `int`s modelled as `Nat`; `Timestamp` is the upstream textual
timestamp. -/
structure SearchResult where
  Title : String
  PageID : Nat
  Size : Nat
  WordCount : Nat
  Snippet : String
  Timestamp : String
  URL : String
  Extract : String
deriving DecidableEq, Repr

/-- `wiki.SearchResponse`: the unit stored in / retrieved from the cache for
a search key.  `SearchedAt` models the `time.Time` instant as a `Nat`. -/
structure SearchResponse where
  Query : String
  Results : List SearchResult
  Total : Nat
  SearchedAt : Nat
deriving DecidableEq, Repr

/-- One raw entry of the upstream envelope's `query.search` array. -/
structure WikiSearchItem where
  ns : Nat
  title : String
  pageid : Nat
  size : Nat
  wordcount : Nat
  snippet : String
  timestamp : String
deriving DecidableEq, Repr

/-- `wiki.WikiAPIResponse`, flattened: the decoded upstream search envelope
(`query.search` array and `query.searchinfo.totalhits`). -/
structure WikiAPIResponse where
  search : List WikiSearchItem
  totalHits : Nat
deriving DecidableEq, Repr

/-! ## JSON serialization (modelled)

`encoding/json.Marshal` / `json.Unmarshal` specialised to `SearchResponse`.
The JSON grammar itself is abstracted: what the claims need is a concrete,
executable textual encoding that `Marshal` produces, together with a decoder
that inverts it exactly and fails on other strings — mirroring that
`json.Marshal` of a `SearchResponse` is total and deterministic while
`json.Unmarshal` can fail on arbitrary cached text.  Numbers are written in
unary (a run of `1`s closed by `;`), strings are length-prefixed. -/

/-- Encode a natural number (unary digits closed by a semicolon). -/
def encNat (n : Nat) : List Char := List.replicate n '1' ++ [';']

/-- Encode a string, length-prefixed. -/
def encStr (s : String) : List Char := encNat s.length ++ s.data

/-- Textual form of one `SearchResult`. -/
def encResult (r : SearchResult) : List Char :=
  encStr r.Title ++ encNat r.PageID ++ encNat r.Size ++ encNat r.WordCount ++
  encStr r.Snippet ++ encStr r.Timestamp ++ encStr r.URL ++ encStr r.Extract

/-- Textual form of a whole `SearchResponse` (models `json.Marshal`). -/
def marshalSearchResponse (resp : SearchResponse) : String :=
  ⟨encStr resp.Query ++ encNat resp.Results.length ++
    (resp.Results.map encResult).flatten ++ encNat resp.Total ++
    encNat resp.SearchedAt⟩

/-- Decode a unary number; fails unless the input starts with `1…1;`. -/
def parseNat : List Char → Option (Nat × List Char)
  | [] => none
  | c :: rest =>
    if c = ';' then some (0, rest)
    else if c = '1' then
      match parseNat rest with
      | some (n, rem) => some (n + 1, rem)
      | none => none
    else none

/-- Decode a length-prefixed string. -/
def parseStr (l : List Char) : Option (String × List Char) :=
  match parseNat l with
  | some (n, rem) =>
    if n ≤ rem.length then some (⟨rem.take n⟩, rem.drop n) else none
  | none => none

/-- Decode one `SearchResult`. -/
def parseResult (l : List Char) : Option (SearchResult × List Char) :=
  match parseStr l with
  | none => none
  | some (title, l1) =>
    match parseNat l1 with
    | none => none
    | some (pid, l2) =>
      match parseNat l2 with
      | none => none
      | some (sz, l3) =>
        match parseNat l3 with
        | none => none
        | some (wc, l4) =>
          match parseStr l4 with
          | none => none
          | some (sn, l5) =>
            match parseStr l5 with
            | none => none
            | some (ts, l6) =>
              match parseStr l6 with
              | none => none
              | some (u, l7) =>
                match parseStr l7 with
                | none => none
                | some (ex, l8) =>
                  some (⟨title, pid, sz, wc, sn, ts, u, ex⟩, l8)

/-- Decode a counted sequence of `SearchResult`s. -/
def parseResults : Nat → List Char → Option (List SearchResult × List Char)
  | 0, l => some ([], l)
  | n + 1, l =>
    match parseResult l with
    | none => none
    | some (r, l1) =>
      match parseResults n l1 with
      | none => none
      | some (rs, l2) => some (r :: rs, l2)

/-- Decode a `SearchResponse` from its textual form (models `json.Unmarshal`
with a `SearchResponse` destination); `none` models an unmarshalling error. -/
def unmarshalSearchResponse (s : String) : Option SearchResponse :=
  match parseStr s.data with
  | none => none
  | some (q, l1) =>
    match parseNat l1 with
    | none => none
    | some (n, l2) =>
      match parseResults n l2 with
      | none => none
      | some (rs, l3) =>
        match parseNat l3 with
        | none => none
        | some (tot, l4) =>
          match parseNat l4 with
          | none => none
          | some (at_, l5) =>
            if l5.isEmpty then some ⟨q, rs, tot, at_⟩ else none

/-! ## Cache manager (`internal/cache.Manager`)

The underlying store is the third-party expiring key-value library, whose
sources are not part of the repository.  Modelled from the spec: `set`
schedules expiry at `now + ttl` and overwrites unconditionally; `get`
reports found exactly when the key is present and the current time does not
exceed its expiry (the live expiry check, independent of the background
sweep, which removes only already-expired entries and is therefore invisible
to `get`).  Time is an explicit `Nat` parameter.  The store is an
association list where the most recent `set` of a key shadows older
entries — observationally the library's map. -/

/-- A Go dynamic value held in the cache: a string, or a value of any other
dynamic type (which the string-typed accessors reject). -/
inductive GoVal where
  | str (s : String)
  | nonString (tag : Nat)
deriving DecidableEq, Repr

/-- One stored cache entry: key, value, absolute expiry instant. -/
structure CacheEntry where
  key : String
  val : GoVal
  exp : Nat
deriving DecidableEq, Repr

/-- The cache contents. -/
def Store := List CacheEntry
deriving DecidableEq

namespace Cache

/-- `Manager.Set` (modelled from the spec: unconditional overwrite, expiry
scheduled at `now + ttl`). -/
def set (st : Store) (key : String) (value : GoVal) (now ttl : Nat) : Store :=
  (⟨key, value, now + ttl⟩ : CacheEntry) :: st

/-- Most recent entry stored under `key`, expired or not. -/
def lookup : Store → String → Option CacheEntry
  | [], _ => none
  | e :: rest, key => if e.key = key then some e else lookup rest key

/-- `Manager.Get` (modelled from the spec: found iff present and the current
time does not exceed the entry's expiry). -/
def get (st : Store) (key : String) (now : Nat) : Option GoVal :=
  match lookup st key with
  | some e => if e.exp < now then none else some e.val
  | none => none

/-- `Manager.GetString`: found only if the stored dynamic value is a string. -/
def getString (st : Store) (key : String) (now : Nat) : Option String :=
  match get st key now with
  | some (GoVal.str s) => some s
  | _ => none

/-- `Manager.GetJSON` with a `*SearchResponse` destination: `none` models a
`false` return (miss, expiry, non-string value, or unmarshalling failure —
the error is swallowed). -/
def getJSON (st : Store) (key : String) (now : Nat) : Option SearchResponse :=
  match get st key now with
  | some (GoVal.str s) => unmarshalSearchResponse s
  | _ => none

/-- `Manager.SetJSON` with a `SearchResponse` value: marshal, then store the
text under the key.  (`json.Marshal` of this shape cannot fail, so the Go
error result is always nil and the model is total.) -/
def setJSON (st : Store) (key : String) (value : SearchResponse) (now ttl : Nat) : Store :=
  set st key (GoVal.str (marshalSearchResponse value)) now ttl

/-- `Manager.GetWikiSearchKey`. -/
def getWikiSearchKey (query : String) : String := "wiki:search:" ++ query

/-- `Manager.GetWikiPageKey`. -/
def getWikiPageKey (title : String) : String := "wiki:page:" ++ title

/-- `cache.WikiDataTTL` (24 hours, in nanoseconds as a Go `time.Duration`). -/
def WikiDataTTL : Nat := 24 * 60 * 60 * 1000000000

end Cache

/-! ## Wiki client (`internal/wiki.Client`)

Effects are made explicit: the cache is threaded as a `Store` (plus a `now`
instant), the HTTP layer is an `Upstream` oracle giving, for each possible
request, the decoded outcome of issuing it (transport error, non-200 status
and JSON-decode error summarised as `Except.error`), and every outbound call
is recorded in a trace. -/

/-- `wikiBaseURL`. -/
def wikiBaseURL : String := "https://wiki.guildwars2.com"

/-- One outbound HTTP request the client can issue. -/
inductive Call where
  | searchReq (query : String) (limit : Nat)
  | extractReq (title : String)
deriving DecidableEq, Repr

/-- The HTTP layer, as an oracle from requests to decoded outcomes. -/
structure Upstream where
  searchOutcome : String → Nat → Except String WikiAPIResponse
  extractOutcome : String → Except String String

/-- The per-entry conversion of `Client.performSearch`: decode one raw
`query.search` entry into a `SearchResult`, cleaning the snippet.  `URL`
and `Extract` keep their Go zero value `""`. -/
def convertItem (item : WikiSearchItem) : SearchResult :=
  { Title := item.title
    PageID := item.pageid
    Size := item.size
    WordCount := item.wordcount
    Snippet := cleanSnippet item.snippet
    Timestamp := item.timestamp
    URL := ""
    Extract := "" }

/-- `Client.performSearch`: issue the search request (the oracle summarises
transport, status and decode) and convert the envelope's `query.search`
entries into `SearchResult`s, cleaning each snippet.
`query.searchinfo.totalhits` is decoded into the envelope but not read.
Returns the outcome plus the issued call. -/
def performSearch (up : Upstream) (query : String) (limit : Nat) :
    Except String (List SearchResult) × List Call :=
  match up.searchOutcome query limit with
  | Except.error e => (Except.error e, [Call.searchReq query limit])
  | Except.ok api => (Except.ok (api.search.map convertItem), [Call.searchReq query limit])

/-- `Client.getPageExtract`: per-title cache-backed extract fetch.  On a
cached string, return it with no outbound call; otherwise consult the
oracle, and on success cache the extract under the page key with the
long-lived TTL. -/
def getPageExtract (st : Store) (up : Upstream) (now : Nat) (title : String) :
    Except String String × Store × List Call :=
  let cacheKey := Cache.getWikiPageKey title
  match Cache.getString st cacheKey now with
  | some extract => (Except.ok extract, st, [])
  | none =>
    match up.extractOutcome title with
    | Except.error e => (Except.error e, st, [Call.extractReq title])
    | Except.ok extract =>
      (Except.ok extract,
       Cache.set st cacheKey (GoVal.str extract) now Cache.WikiDataTTL,
       [Call.extractReq title])

/-- The enrichment loop of `Client.Search` (`for i := range searchResults`):
attempt an extract for each result (a failure leaves the field as it was and
is only logged), then unconditionally assign the canonical URL built with
`url.QueryEscape` on the title. -/
def enrichResults (up : Upstream) (now : Nat) :
    Store → List SearchResult → List SearchResult × Store × List Call
  | st, [] => ([], st, [])
  | st, r :: rest =>
    let step := getPageExtract st up now r.Title
    let r1 := match step.1 with
      | Except.ok extract => { r with Extract := extract }
      | Except.error _ => r
    let r2 := { r1 with URL := wikiBaseURL ++ "/wiki/" ++ goQueryEscape r.Title }
    let next := enrichResults up now step.2.1 rest
    (r2 :: next.1, next.2.1, step.2.2 ++ next.2.2)

/-- The query normalization of `Client.Search`
(`strings.ToLower(strings.TrimSpace(query))`). -/
def normalizeQuery (query : String) : String :=
  ⟨goToLowerStr (goTrimSpace query.data)⟩

/-- `Client.Search`: derive the cache key from the normalized query; return a
cached response verbatim on hit; otherwise search, enrich, assemble the
response (total = number of results, searched-at = now) and cache it under
the same key with the long-lived TTL (a store failure would only be logged).
Returns the outcome, the new cache contents and the trace of outbound
calls. -/
def search (st : Store) (up : Upstream) (now : Nat) (query : String) (limit : Nat) :
    Except String SearchResponse × Store × List Call :=
  let cacheKey := Cache.getWikiSearchKey (normalizeQuery query)
  match Cache.getJSON st cacheKey now with
  | some cached => (Except.ok cached, st, [])
  | none =>
    match performSearch up query limit with
    | (Except.error e, calls) => (Except.error ("search failed: " ++ e), st, calls)
    | (Except.ok searchResults, calls) =>
      let enriched := enrichResults up now st searchResults
      let resp : SearchResponse :=
        { Query := query
          Results := enriched.1
          Total := enriched.1.length
          SearchedAt := now }
      let st2 := Cache.setJSON enriched.2.1 cacheKey resp now Cache.WikiDataTTL
      (Except.ok resp, st2, calls ++ enriched.2.2)

/-- Decidable side condition used by the enrichment-isolation claim: either
the upstream extract fetch for `t` fails, or the extract it returns is
non-empty (so an empty extract field unambiguously marks a failure). -/
def extractNonempty (up : Upstream) (t : String) : Bool :=
  match up.extractOutcome t with
  | Except.ok v => !(v == "")
  | Except.error _ => true

/-! ## Concrete fixtures (mirroring the repository's test data) -/

/-- Expected response of the empty-successful-extract run. -/
def emptySuccessResponse : SearchResponse :=
  { Query := "q"
    Results := [{ Title := "A", PageID := 1, Size := 1, WordCount := 1, Snippet := "sa",
                  Timestamp := "t", URL := "https://wiki.guildwars2.com/wiki/A",
                  Extract := "" },
                { Title := "B", PageID := 2, Size := 2, WordCount := 2, Snippet := "sb",
                  Timestamp := "t", URL := "https://wiki.guildwars2.com/wiki/B",
                  Extract := "" }]
    Total := 2
    SearchedAt := 0 }

/-- An upstream that fails every request (a cache-hit run must never
consult it). -/
def upOffline : Upstream :=
  { searchOutcome := fun _ _ => Except.error "offline"
    extractOutcome := fun _ => Except.error "offline" }

/-- The cached response of the repository's cache-hit test. -/
def sampleResponse : SearchResponse :=
  { Query := "test query"
    Results := [{ Title := "Test Page", PageID := 123, Size := 0, WordCount := 0,
                  Snippet := "", Timestamp := "", URL := "", Extract := "" }]
    Total := 1
    SearchedAt := 0 }

/-- The mixed-content input of the repository's snippet-cleaning test. -/
def sampleSnippet : String :=
  "<span class=\"searchmatch\">Dragon</span>\n\tBash &amp; &quot;events&quot;   "

/-- The mocked upstream of the repository's API test: one result titled
"Dragon Bash". -/
def upDragonBash : Upstream :=
  { searchOutcome := fun _ _ => Except.ok
      { search := [{ ns := 0, title := "Dragon Bash", pageid := 12345, size := 5000,
                     wordcount := 800,
                     snippet := "<span class=\"searchmatch\">Dragon</span> Bash is a festival",
                     timestamp := "2023-07-01T12:00:00Z" }]
        totalHits := 1 }
    extractOutcome := fun _ => Except.ok "Dragon Bash is an annual festival in Guild Wars 2." }

/-- Two results; the extract fetch for "B" fails, the one for "A" succeeds
but returns the empty string. -/
def upEmptySuccess : Upstream :=
  { searchOutcome := fun _ _ => Except.ok
      { search := [{ ns := 0, title := "A", pageid := 1, size := 1, wordcount := 1,
                     snippet := "sa", timestamp := "t" },
                   { ns := 0, title := "B", pageid := 2, size := 2, wordcount := 2,
                     snippet := "sb", timestamp := "t" }]
        totalHits := 2 }
    extractOutcome := fun t => if t = "B" then Except.error "network error" else Except.ok "" }

/-- Three results; the extract fetch for "B" fails, the others succeed with
non-empty extracts. -/
def upOneFailing : Upstream :=
  { searchOutcome := fun _ _ => Except.ok
      { search := [{ ns := 0, title := "A", pageid := 1, size := 1, wordcount := 1,
                     snippet := "sa", timestamp := "t" },
                   { ns := 0, title := "B", pageid := 2, size := 2, wordcount := 2,
                     snippet := "sb", timestamp := "t" },
                   { ns := 0, title := "C", pageid := 3, size := 3, wordcount := 3,
                     snippet := "sc", timestamp := "t" }]
        totalHits := 3 }
    extractOutcome := fun t =>
      if t = "B" then Except.error "network error"
      else if t = "A" then Except.ok "extract a" else Except.ok "extract c" }

/-- An upstream returning no results at all (smallest possible store
after a miss). -/
def upNoResults : Upstream :=
  { searchOutcome := fun _ _ => Except.ok { search := [], totalHits := 0 }
    extractOutcome := fun _ => Except.error "offline" }

/-- One result titled "T"; used to exercise the cache short-circuit. -/
def upSingleT : Upstream :=
  { searchOutcome := fun _ _ => Except.ok
      { search := [{ ns := 0, title := "T", pageid := 1, size := 1, wordcount := 1,
                     snippet := "s", timestamp := "t" }]
        totalHits := 1 }
    extractOutcome := fun _ => Except.ok "e" }

/-- Same search payload as `upSingleT` but a different `totalhits`. -/
def upSingleT999 : Upstream :=
  { searchOutcome := fun _ _ => Except.ok
      { search := [{ ns := 0, title := "T", pageid := 1, size := 1, wordcount := 1,
                     snippet := "s", timestamp := "t" }]
        totalHits := 999 }
    extractOutcome := fun _ => Except.ok "e" }

/-! ## Lemmas about the string helpers -/

theorem replaceAllAux_of_not_contains (p r : List Char) :
    ∀ (n : Nat) (s : List Char), containsSub p s = false → replaceAllAux p r n s = s := by
  intro n
  induction n with
  | zero => intro s _; rfl
  | succ n ih =>
    intro s hs
    cases s with
    | nil => rfl
    | cons c rest =>
      rw [containsSub, Bool.or_eq_false_iff] at hs
      rw [replaceAllAux, if_neg, ih rest hs.2]
      simp [hs.1]

theorem replaceAll_of_not_contains (p r s : List Char) (h : containsSub p s = false) :
    replaceAll p r s = s :=
  replaceAllAux_of_not_contains p r s.length s h

theorem isPrefixOf_length_le {p q : List Char} (h : p.isPrefixOf q = true) :
    p.length ≤ q.length :=
  (List.isPrefixOf_iff_prefix.mp h).length_le

theorem match_facts {p : List Char} {c : Char} {rest : List Char}
    (hmatch : (!p.isEmpty && p.isPrefixOf (c :: rest)) = true) :
    1 ≤ p.length ∧ p.length ≤ rest.length + 1 := by
  rw [Bool.and_eq_true] at hmatch
  obtain ⟨hne, hp⟩ := hmatch
  constructor
  · cases p with
    | nil => simp at hne
    | cons a as => exact Nat.succ_le_succ (Nat.zero_le _)
  · simpa using isPrefixOf_length_le hp

theorem length_replaceAllAux_le (p r : List Char) (hr : r.length ≤ p.length) :
    ∀ (n : Nat) (s : List Char), s.length ≤ n →
      (replaceAllAux p r n s).length ≤ s.length := by
  intro n
  induction n with
  | zero => intro s _; exact Nat.le_refl _
  | succ n ih =>
    intro s hs
    cases s with
    | nil => exact Nat.le_refl _
    | cons c rest =>
      rw [replaceAllAux]
      by_cases hmatch : (!p.isEmpty && p.isPrefixOf (c :: rest)) = true
      · rw [if_pos hmatch]
        obtain ⟨hp1, hplen⟩ := match_facts hmatch
        have hdrop : ((c :: rest).drop p.length).length = rest.length + 1 - p.length := by
          simp [List.length_drop]
        have hle : ((c :: rest).drop p.length).length ≤ n := by
          rw [hdrop]; simp only [List.length_cons] at hs; omega
        have hrec := ih ((c :: rest).drop p.length) hle
        rw [List.length_append, List.length_cons]
        rw [hdrop] at hrec
        simp only [List.length_cons] at hs
        omega
      · rw [if_neg hmatch]
        have hrec := ih rest (by simp only [List.length_cons] at hs; omega)
        rw [List.length_cons, List.length_cons]
        omega

theorem length_replaceAllAux_lt (p r : List Char) (hr : r.length < p.length) :
    ∀ (n : Nat) (s : List Char), s.length ≤ n → containsSub p s = true →
      (replaceAllAux p r n s).length < s.length := by
  intro n
  induction n with
  | zero =>
    intro s hs hc
    have : s = [] := List.length_eq_zero.mp (Nat.le_zero.mp hs)
    subst this
    rw [containsSub] at hc
    have : p = [] := by simpa using hc
    subst this; simp at hr
  | succ n ih =>
    intro s hs hc
    cases s with
    | nil =>
      rw [containsSub] at hc
      have : p = [] := by simpa using hc
      subst this; simp at hr
    | cons c rest =>
      rw [replaceAllAux]
      by_cases hmatch : (!p.isEmpty && p.isPrefixOf (c :: rest)) = true
      · rw [if_pos hmatch]
        obtain ⟨hp1, hplen⟩ := match_facts hmatch
        have hdrop : ((c :: rest).drop p.length).length = rest.length + 1 - p.length := by
          simp [List.length_drop]
        have hle : ((c :: rest).drop p.length).length ≤ n := by
          rw [hdrop]; simp only [List.length_cons] at hs; omega
        have hrec := length_replaceAllAux_le p r (Nat.le_of_lt hr) n
          ((c :: rest).drop p.length) hle
        rw [List.length_append, List.length_cons]
        rw [hdrop] at hrec
        omega
      · rw [if_neg hmatch]
        have hcrest : containsSub p rest = true := by
          rw [containsSub, Bool.or_eq_true] at hc
          rcases hc with hpre | h
          · exfalso
            apply hmatch
            rw [Bool.and_eq_true]
            refine ⟨?_, hpre⟩
            cases p with
            | nil => simp at hr
            | cons a as => simp
          · exact h
        have hrec := ih rest (by simp only [List.length_cons] at hs; omega) hcrest
        rw [List.length_cons, List.length_cons]
        omega

theorem mem_replaceAllAux (p r : List Char) :
    ∀ (n : Nat) (s : List Char) (x : Char), x ∈ replaceAllAux p r n s → x ∈ s ∨ x ∈ r := by
  intro n
  induction n with
  | zero => intro s x hx; exact Or.inl hx
  | succ n ih =>
    intro s x hx
    cases s with
    | nil => exact Or.inl hx
    | cons c rest =>
      rw [replaceAllAux] at hx
      by_cases hmatch : (!p.isEmpty && p.isPrefixOf (c :: rest)) = true
      · rw [if_pos hmatch] at hx
        rcases List.mem_append.mp hx with hxr | hxs
        · exact Or.inr hxr
        · rcases ih _ x hxs with hdrop | hxr
          · exact Or.inl (List.mem_of_mem_drop hdrop)
          · exact Or.inr hxr
      · rw [if_neg hmatch] at hx
        rcases List.mem_cons.mp hx with rfl | hxs
        · exact Or.inl (List.mem_cons_self _ _)
        · rcases ih rest x hxs with hmem | hxr
          · exact Or.inl (List.mem_cons_of_mem _ hmem)
          · exact Or.inr hxr

theorem singleton_isPrefixOf (c a : Char) (l : List Char) :
    [c].isPrefixOf (a :: l) = (c == a) := by
  simp [List.isPrefixOf]

theorem replaceAllAux_singleton_eq_map (c d : Char) :
    ∀ (n : Nat) (s : List Char), s.length ≤ n →
      replaceAllAux [c] [d] n s = s.map (fun x => if x = c then d else x) := by
  intro n
  induction n with
  | zero =>
    intro s hs
    have : s = [] := List.length_eq_zero.mp (Nat.le_zero.mp hs)
    subst this; rfl
  | succ n ih =>
    intro s hs
    cases s with
    | nil => rfl
    | cons a rest =>
      have hlen : rest.length ≤ n := by
        simp only [List.length_cons] at hs; omega
      rw [replaceAllAux]
      by_cases hac : a = c
      · subst hac
        rw [if_pos (by rw [singleton_isPrefixOf]; simp)]
        have hdrop : (a :: rest).drop ([a].length) = rest := by simp
        rw [hdrop, ih rest hlen]
        simp
      · rw [if_neg (by rw [singleton_isPrefixOf]; simp; exact fun h => hac h.symm)]
        rw [ih rest hlen]
        simp [Ne.symm, hac]

theorem containsSub_singleton_iff (c : Char) (s : List Char) :
    containsSub [c] s = true ↔ c ∈ s := by
  induction s with
  | nil => simp [containsSub]
  | cons a rest ih =>
    rw [containsSub, Bool.or_eq_true, ih, singleton_isPrefixOf]
    constructor
    · rintro (h | h)
      · have : c = a := by simpa using h
        subst this; exact List.mem_cons_self _ _
      · exact List.mem_cons_of_mem _ h
    · intro h
      rcases List.mem_cons.mp h with rfl | h
      · exact Or.inl (by simp)
      · exact Or.inr h

theorem collapseAux_of_not_contains (n : Nat) (t : List Char)
    (h : containsSub [' ', ' '] t = false) : collapseAux n t = t := by
  cases n with
  | zero => rfl
  | succ n => rw [collapseAux, if_neg (by rw [h]; simp)]

theorem collapseAux_no_double :
    ∀ (n : Nat) (t : List Char), t.length ≤ n →
      containsSub [' ', ' '] (collapseAux n t) = false := by
  intro n
  induction n with
  | zero =>
    intro t ht
    have : t = [] := List.length_eq_zero.mp (Nat.le_zero.mp ht)
    subst this; rfl
  | succ n ih =>
    intro t ht
    rw [collapseAux]
    by_cases hc : containsSub [' ', ' '] t = true
    · rw [if_pos hc]
      apply ih
      have := length_replaceAllAux_lt [' ', ' '] [' '] (by simp) t.length t
        (Nat.le_refl _) hc
      rw [replaceAll]
      omega
    · rw [if_neg hc]
      exact Bool.eq_false_iff.mpr hc

theorem mem_collapseAux :
    ∀ (n : Nat) (t : List Char) (x : Char), x ∈ collapseAux n t → x ∈ t ∨ x = ' ' := by
  intro n
  induction n with
  | zero => intro t x hx; exact Or.inl hx
  | succ n ih =>
    intro t x hx
    rw [collapseAux] at hx
    by_cases hc : containsSub [' ', ' '] t = true
    · rw [if_pos hc] at hx
      rcases ih _ x hx with hmem | hsp
      · rcases mem_replaceAllAux _ _ _ _ x hmem with h | h
        · exact Or.inl h
        · right; simpa using h
      · exact Or.inr hsp
    · rw [if_neg hc] at hx
      exact Or.inl hx

theorem head?_replaceAllAux_twoSpace (n : Nat) (t : List Char) (c : Char)
    (hh : t.head? = some c) (hc : c ≠ ' ') :
    (replaceAllAux [' ', ' '] [' '] n t).head? = some c := by
  cases n with
  | zero => exact hh
  | succ n =>
    cases t with
    | nil => simp at hh
    | cons a rest =>
      have : a = c := by simpa using hh
      subst this
      rw [replaceAllAux]
      rw [if_neg]
      · rfl
      · intro hmatch
        rw [Bool.and_eq_true] at hmatch
        have hp := hmatch.2
        cases rest with
        | nil => simp [List.isPrefixOf] at hp
        | cons b bs =>
          simp [List.isPrefixOf] at hp
          exact hc hp.1.symm

theorem getLast?_cons_ne_nil {a : Char} {l : List Char} (h : l ≠ []) :
    (a :: l).getLast? = l.getLast? := by
  cases l with
  | nil => exact absurd rfl h
  | cons b bs => exact List.getLast?_cons_cons

theorem ne_nil_of_getLast?_eq_some {l : List Char} {c : Char}
    (h : l.getLast? = some c) : l ≠ [] := by
  intro hnil; subst hnil; simp at h

theorem getLast?_replaceAllAux_twoSpace :
    ∀ (n : Nat) (t : List Char) (c : Char), t.getLast? = some c → c ≠ ' ' →
      (replaceAllAux [' ', ' '] [' '] n t).getLast? = some c := by
  intro n
  induction n with
  | zero => intro t c hl _; exact hl
  | succ n ih =>
    intro t c hl hc
    cases t with
    | nil => simp at hl
    | cons a rest =>
      rw [replaceAllAux]
      by_cases hmatch : (!([' ', ' '] : List Char).isEmpty &&
          ([' ', ' '] : List Char).isPrefixOf (a :: rest)) = true
      · rw [if_pos hmatch]
        rw [Bool.and_eq_true] at hmatch
        have hp := hmatch.2
        cases rest with
        | nil => simp [List.isPrefixOf] at hp
        | cons b bs =>
          obtain ⟨ha, hb⟩ : a = ' ' ∧ b = ' ' := by
            simp [List.isPrefixOf] at hp
            exact ⟨hp.1.symm, hp.2.symm⟩
          have hdrop : (a :: b :: bs).drop ([' ', ' '] : List Char).length = bs := by simp
          rw [hdrop]
          cases bs with
          | nil =>
            exfalso
            apply hc
            have : (a :: b :: ([] : List Char)).getLast? = some b := by
              rw [List.getLast?_cons_cons]; rfl
            rw [this] at hl
            injection hl with h
            rw [← h, hb]
          | cons d ds =>
            have hlast : (d :: ds).getLast? = some c := by
              rw [List.getLast?_cons_cons, List.getLast?_cons_cons] at hl
              exact hl
            have hrec := ih (d :: ds) c hlast hc
            have hne : replaceAllAux [' ', ' '] [' '] n (d :: ds) ≠ [] :=
              ne_nil_of_getLast?_eq_some hrec
            calc ([' '] ++ replaceAllAux [' ', ' '] [' '] n (d :: ds)).getLast?
                = (replaceAllAux [' ', ' '] [' '] n (d :: ds)).getLast? := by
                  rw [List.singleton_append]; exact getLast?_cons_ne_nil hne
              _ = some c := hrec
      · rw [if_neg hmatch]
        cases rest with
        | nil =>
          have : a = c := by simpa using hl
          subst this
          cases n <;> rfl
        | cons b bs =>
          have hlast : (b :: bs).getLast? = some c := by
            rw [List.getLast?_cons_cons] at hl; exact hl
          have hrec := ih (b :: bs) c hlast hc
          have hne : replaceAllAux [' ', ' '] [' '] n (b :: bs) ≠ [] :=
            ne_nil_of_getLast?_eq_some hrec
          rw [getLast?_cons_ne_nil hne]
          exact hrec

theorem head?_collapseAux :
    ∀ (n : Nat) (t : List Char) (c : Char), t.head? = some c → c ≠ ' ' →
      (collapseAux n t).head? = some c := by
  intro n
  induction n with
  | zero => intro t c h _; exact h
  | succ n ih =>
    intro t c h hc
    rw [collapseAux]
    by_cases hcon : containsSub [' ', ' '] t = true
    · rw [if_pos hcon]
      exact ih _ c (head?_replaceAllAux_twoSpace _ t c h hc) hc
    · rw [if_neg hcon]; exact h

theorem getLast?_collapseAux :
    ∀ (n : Nat) (t : List Char) (c : Char), t.getLast? = some c → c ≠ ' ' →
      (collapseAux n t).getLast? = some c := by
  intro n
  induction n with
  | zero => intro t c h _; exact h
  | succ n ih =>
    intro t c h hc
    rw [collapseAux]
    by_cases hcon : containsSub [' ', ' '] t = true
    · rw [if_pos hcon]
      exact ih _ c (getLast?_replaceAllAux_twoSpace _ t c h hc) hc
    · rw [if_neg hcon]; exact h

theorem head?_dropWhile_false {p : Char → Bool} :
    ∀ {l : List Char} {c : Char}, (l.dropWhile p).head? = some c → p c = false := by
  intro l
  induction l with
  | nil => intro c h; simp [List.dropWhile] at h
  | cons a rest ih =>
    intro c h
    cases hp : p a with
    | true =>
      rw [List.dropWhile, hp] at h
      exact ih h
    | false =>
      rw [List.dropWhile, hp] at h
      have : a = c := by simpa using h
      subst this
      exact hp

theorem dropWhile_eq_self_of_head {p : Char → Bool} {l : List Char} {c : Char}
    (hh : l.head? = some c) (hp : p c = false) : l.dropWhile p = l := by
  cases l with
  | nil => rfl
  | cons a rest =>
    have : a = c := by simpa using hh
    subst this
    rw [List.dropWhile, hp]

theorem getLast?_dropWhile_ne_nil {p : Char → Bool} :
    ∀ {l : List Char}, l.dropWhile p ≠ [] → (l.dropWhile p).getLast? = l.getLast? := by
  intro l
  induction l with
  | nil => intro h; rfl
  | cons a rest ih =>
    intro h
    cases hp : p a with
    | true =>
      rw [List.dropWhile, hp] at h ⊢
      have hrest : rest ≠ [] := by
        intro hnil; subst hnil; simp [List.dropWhile] at h
      rw [ih h, getLast?_cons_ne_nil hrest]
    | false => rw [List.dropWhile, hp]

theorem goTrimSpace_nil : goTrimSpace [] = [] := rfl

theorem head?_goTrimSpace (s : List Char) (c : Char)
    (h : (goTrimSpace s).head? = some c) : isGoSpace c = false := by
  rw [goTrimSpace, List.head?_reverse] at h
  have hne : (s.dropWhile isGoSpace).reverse.dropWhile isGoSpace ≠ [] :=
    ne_nil_of_getLast?_eq_some h
  rw [getLast?_dropWhile_ne_nil hne, List.getLast?_reverse] at h
  exact head?_dropWhile_false h

theorem getLast?_goTrimSpace (s : List Char) (c : Char)
    (h : (goTrimSpace s).getLast? = some c) : isGoSpace c = false := by
  rw [goTrimSpace, List.getLast?_reverse] at h
  exact head?_dropWhile_false h

theorem goTrimSpace_eq_self {t : List Char} {a b : Char}
    (hh : t.head? = some a) (ha : isGoSpace a = false)
    (hl : t.getLast? = some b) (hb : isGoSpace b = false) :
    goTrimSpace t = t := by
  rw [goTrimSpace, dropWhile_eq_self_of_head hh ha,
    dropWhile_eq_self_of_head (by rw [List.head?_reverse]; exact hl) hb,
    List.reverse_reverse]

theorem isGoSpace_of_nl_tab {c : Char} (h : c = '\n' ∨ c = '\t' ∨ c = ' ') :
    isGoSpace c = true := by
  rcases h with rfl | rfl | rfl <;> decide

/-- The whitespace phase of `cleanSnippet` (trim, newline and tab to space,
collapse runs of spaces) reaches a fixed point of each of its own steps:
its output is trimmed, free of newlines and tabs, and free of double
spaces. -/
theorem wsPhase_fixed (u : List Char) :
    goTrimSpace (collapseSpaces (replaceAll "\t".data " ".data
        (replaceAll "\n".data " ".data (goTrimSpace u)))) =
      collapseSpaces (replaceAll "\t".data " ".data
        (replaceAll "\n".data " ".data (goTrimSpace u))) ∧
    replaceAll "\n".data " ".data (collapseSpaces (replaceAll "\t".data " ".data
        (replaceAll "\n".data " ".data (goTrimSpace u)))) =
      collapseSpaces (replaceAll "\t".data " ".data
        (replaceAll "\n".data " ".data (goTrimSpace u))) ∧
    replaceAll "\t".data " ".data (collapseSpaces (replaceAll "\t".data " ".data
        (replaceAll "\n".data " ".data (goTrimSpace u)))) =
      collapseSpaces (replaceAll "\t".data " ".data
        (replaceAll "\n".data " ".data (goTrimSpace u))) ∧
    collapseSpaces (collapseSpaces (replaceAll "\t".data " ".data
        (replaceAll "\n".data " ".data (goTrimSpace u)))) =
      collapseSpaces (replaceAll "\t".data " ".data
        (replaceAll "\n".data " ".data (goTrimSpace u))) := by
  set v := goTrimSpace u with hv
  have hnl : "\n".data = ['\n'] := rfl
  have htb : "\t".data = ['\t'] := rfl
  have hsp : " ".data = [' '] := rfl
  set f1 : Char → Char := fun x => if x = '\n' then ' ' else x with hf1
  set f2 : Char → Char := fun x => if x = '\t' then ' ' else x with hf2
  have hw1 : replaceAll "\n".data " ".data v = v.map f1 := by
    rw [hnl, hsp, replaceAll]
    exact replaceAllAux_singleton_eq_map '\n' ' ' v.length v (Nat.le_refl _)
  set w : List Char := (v.map f1).map f2 with hww
  have hw2 : replaceAll "\t".data " ".data (v.map f1) = w := by
    rw [htb, hsp, replaceAll]
    exact replaceAllAux_singleton_eq_map '\t' ' ' _ _ (Nat.le_refl _)
  set t : List Char := collapseSpaces w with ht
  -- No newline and no tab survives the two maps.
  have hnl_w : '\n' ∉ w := by
    intro hmem
    rw [hww] at hmem
    rcases List.mem_map.mp hmem with ⟨y, hy, hfy⟩
    rcases List.mem_map.mp hy with ⟨x, _, hfx⟩
    by_cases hyt : y = '\t'
    · simp only [hf2, hyt, if_pos] at hfy
      exact absurd hfy (by decide)
    · simp only [hf2, if_neg hyt] at hfy
      subst hfy
      by_cases hxn : x = '\n'
      · simp only [hf1, hxn, if_pos] at hfx
        exact absurd hfx (by decide)
      · simp only [hf1, if_neg hxn] at hfx
        exact hxn hfx
  have htb_w : '\t' ∉ w := by
    intro hmem
    rw [hww] at hmem
    rcases List.mem_map.mp hmem with ⟨y, _, hfy⟩
    by_cases hyt : y = '\t'
    · simp only [hf2, hyt, if_pos] at hfy
      exact absurd hfy (by decide)
    · simp only [hf2, if_neg hyt] at hfy
      exact hyt hfy
  have hnl_t : '\n' ∉ t := by
    intro hmem
    rcases mem_collapseAux w.length w '\n' hmem with h | h
    · exact hnl_w h
    · exact absurd h (by decide)
  have htb_t : '\t' ∉ t := by
    intro hmem
    rcases mem_collapseAux w.length w '\t' hmem with h | h
    · exact htb_w h
    · exact absurd h (by decide)
  have hnodouble : containsSub [' ', ' '] t = false :=
    collapseAux_no_double w.length w (Nat.le_refl _)
  have hstep2 : replaceAll "\n".data " ".data t = t := by
    rw [hnl, hsp]
    apply replaceAll_of_not_contains
    rw [← Bool.not_eq_true, containsSub_singleton_iff]
    exact hnl_t
  have hstep3 : replaceAll "\t".data " ".data t = t := by
    rw [htb, hsp]
    apply replaceAll_of_not_contains
    rw [← Bool.not_eq_true, containsSub_singleton_iff]
    exact htb_t
  have hstep4 : collapseSpaces t = t :=
    collapseAux_of_not_contains t.length t hnodouble
  have hstep1 : goTrimSpace t = t := by
    cases hcase : t with
    | nil => exact goTrimSpace_nil
    | cons c0 rest =>
      -- `t` is nonempty, hence so is `w`, hence so is `v`.
      have hwne : w ≠ [] := by
        intro hnil
        rw [hww] at hnil
        rw [ht, hww, hnil] at hcase
        simp [collapseSpaces] at hcase
        exact absurd hcase.symm (List.cons_ne_nil c0 rest)
      have hvne : v ≠ [] := by
        intro hnil
        apply hwne
        rw [hww, hnil]
        rfl
      obtain ⟨h0, hv_head⟩ : ∃ h0, v.head? = some h0 := by
        cases hv2 : v with
        | nil => exact absurd hv2 hvne
        | cons x xs => exact ⟨x, rfl⟩
      obtain ⟨g0, hv_last⟩ : ∃ g0, v.getLast? = some g0 := by
        have := List.getLast?_isSome.mpr hvne
        cases hv2 : v.getLast? with
        | none => rw [hv2] at this; simp at this
        | some x => exact ⟨x, rfl⟩
      have hh0 : isGoSpace h0 = false := head?_goTrimSpace u h0 (by rw [← hv]; exact hv_head)
      have hg0 : isGoSpace g0 = false := getLast?_goTrimSpace u g0 (by rw [← hv]; exact hv_last)
      have hfix : ∀ x, isGoSpace x = false → f2 (f1 x) = x := by
        intro x hx
        rw [hf1, hf2]
        have hxn : x ≠ '\n' := fun h => by
          rw [h] at hx; exact absurd hx (by decide)
        have hxt : x ≠ '\t' := fun h => by
          rw [h] at hx; exact absurd hx (by decide)
        simp only [if_neg hxn, if_neg hxt]
      have hw_head : w.head? = some h0 := by
        rw [hww, List.head?_map, List.head?_map, hv_head]
        simp [hfix h0 hh0]
      have hw_last : w.getLast? = some g0 := by
        rw [hww, List.getLast?_map, List.getLast?_map, hv_last]
        simp [hfix g0 hg0]
      have hh0sp : h0 ≠ ' ' := fun h => by
        rw [h] at hh0; exact absurd hh0 (by decide)
      have hg0sp : g0 ≠ ' ' := fun h => by
        rw [h] at hg0; exact absurd hg0 (by decide)
      have ht_head : t.head? = some h0 := head?_collapseAux w.length w h0 hw_head hh0sp
      have ht_last : t.getLast? = some g0 := getLast?_collapseAux w.length w g0 hw_last hg0sp
      rw [← hcase]
      exact goTrimSpace_eq_self ht_head hh0 ht_last hg0
  rw [hw1, hw2]
  exact ⟨hstep1, hstep2, hstep3, hstep4⟩

/-- `cleanSnippet` is a second-pass no-op on outputs that retain none of the
replaced patterns: the workhorse behind the amended idempotence claim. -/
theorem cleanSnippetL_idem (s : List Char)
    (h1 : containsSub spanOpenTag (cleanSnippetL s) = false)
    (h2 : containsSub spanCloseTag (cleanSnippetL s) = false)
    (h3 : containsSub "&quot;".data (cleanSnippetL s) = false)
    (h4 : containsSub "&amp;".data (cleanSnippetL s) = false)
    (h5 : containsSub "&lt;".data (cleanSnippetL s) = false)
    (h6 : containsSub "&gt;".data (cleanSnippetL s) = false) :
    cleanSnippetL (cleanSnippetL s) = cleanSnippetL s := by
  have hws := wsPhase_fixed (replaceAll "&gt;".data ">".data
    (replaceAll "&lt;".data "<".data (replaceAll "&amp;".data "&".data
      (replaceAll "&quot;".data "\"".data (replaceAll spanCloseTag []
        (replaceAll spanOpenTag [] s))))))
  have ht : cleanSnippetL s = collapseSpaces (replaceAll "\t".data " ".data
      (replaceAll "\n".data " ".data (goTrimSpace (replaceAll "&gt;".data ">".data
        (replaceAll "&lt;".data "<".data (replaceAll "&amp;".data "&".data
          (replaceAll "&quot;".data "\"".data (replaceAll spanCloseTag []
            (replaceAll spanOpenTag [] s))))))))) := rfl
  rw [← ht] at hws
  obtain ⟨hw1, hw2, hw3, hw4⟩ := hws
  show collapseSpaces (replaceAll "\t".data " ".data
      (replaceAll "\n".data " ".data (goTrimSpace (replaceAll "&gt;".data ">".data
        (replaceAll "&lt;".data "<".data (replaceAll "&amp;".data "&".data
          (replaceAll "&quot;".data "\"".data (replaceAll spanCloseTag []
            (replaceAll spanOpenTag [] (cleanSnippetL s)))))))))) = cleanSnippetL s
  rw [replaceAll_of_not_contains _ _ _ h1, replaceAll_of_not_contains _ _ _ h2,
    replaceAll_of_not_contains _ _ _ h3, replaceAll_of_not_contains _ _ _ h4,
    replaceAll_of_not_contains _ _ _ h5, replaceAll_of_not_contains _ _ _ h6,
    hw1, hw2, hw3, hw4]

/-! ## Round trip of the serialization model -/

theorem parseNat_enc (n : Nat) (rest : List Char) :
    parseNat (encNat n ++ rest) = some (n, rest) := by
  induction n with
  | zero => rfl
  | succ n ih =>
    rw [encNat, List.replicate_succ]
    show parseNat ('1' :: (List.replicate n '1' ++ [';'] ++ rest)) = some (n + 1, rest)
    rw [parseNat]
    rw [if_neg (by decide), if_pos rfl]
    rw [show List.replicate n '1' ++ [';'] ++ rest = encNat n ++ rest from rfl, ih]

theorem parseStr_enc (s : String) (rest : List Char) :
    parseStr (encStr s ++ rest) = some (s, rest) := by
  rw [encStr, List.append_assoc, parseStr]
  simp only [parseNat_enc]
  have hlen : s.length = s.data.length := rfl
  rw [if_pos (by rw [hlen, List.length_append]; omega)]
  rw [hlen, List.take_left, List.drop_left]

theorem parseResult_enc (r : SearchResult) (rest : List Char) :
    parseResult (encResult r ++ rest) = some (r, rest) := by
  rw [encResult]
  simp only [List.append_assoc, parseResult, parseStr_enc, parseNat_enc]

theorem parseResults_enc (rs : List SearchResult) (rest : List Char) :
    parseResults rs.length ((rs.map encResult).flatten ++ rest) = some (rs, rest) := by
  induction rs with
  | nil => rfl
  | cons r rs ih =>
    rw [List.length_cons, List.map_cons, List.flatten_cons, List.append_assoc]
    simp only [parseResults, parseResult_enc, ih]

theorem unmarshal_marshal (resp : SearchResponse) :
    unmarshalSearchResponse (marshalSearchResponse resp) = some resp := by
  rw [marshalSearchResponse, unmarshalSearchResponse]
  have hshape : (String.mk (encStr resp.Query ++ encNat resp.Results.length ++
      (resp.Results.map encResult).flatten ++ encNat resp.Total ++
      encNat resp.SearchedAt)).data
      = encStr resp.Query ++ (encNat resp.Results.length ++
        ((resp.Results.map encResult).flatten ++ (encNat resp.Total ++
          (encNat resp.SearchedAt ++ [])))) := by
    simp [List.append_assoc]
  rw [hshape]
  simp only [parseStr_enc, parseNat_enc, parseResults_enc, List.isEmpty_nil, if_pos]

/-! ## Lemmas about the cache manager and the search pipeline -/

theorem string_ext {s t : String} (h : s.data = t.data) : s = t := by
  cases s; cases t; exact congrArg String.mk h

theorem getWikiPageKey_inj {t t' : String}
    (h : Cache.getWikiPageKey t = Cache.getWikiPageKey t') : t = t' := by
  rw [Cache.getWikiPageKey, Cache.getWikiPageKey] at h
  have := congrArg String.data h
  rw [String.data_append, String.data_append] at this
  exact string_ext (List.append_cancel_left this)

theorem lookup_set_self (st : Store) (k : String) (v : GoVal) (now ttl : Nat) :
    Cache.lookup (Cache.set st k v now ttl) k = some ⟨k, v, now + ttl⟩ := by
  rw [Cache.set, Cache.lookup, if_pos rfl]

theorem lookup_set_other (st : Store) (k k' : String) (v : GoVal) (now ttl : Nat)
    (h : k ≠ k') : Cache.lookup (Cache.set st k v now ttl) k' = Cache.lookup st k' := by
  rw [Cache.set, Cache.lookup, if_neg h]

/-- `getString` hits exactly on unexpired string-valued entries. -/
theorem getString_eq_some {st : Store} {k : String} {now : Nat} {v : String}
    (h : Cache.getString st k now = some v) :
    ∃ e, Cache.lookup st k = some e ∧ ¬ e.exp < now ∧ e.val = GoVal.str v := by
  rw [Cache.getString, Cache.get] at h
  cases hl : Cache.lookup st k with
  | none => rw [hl] at h; simp at h
  | some e =>
    simp only [hl] at h
    by_cases hexp : e.exp < now
    · rw [if_pos hexp] at h; simp at h
    · rw [if_neg hexp] at h
      cases hv : e.val with
      | str s =>
        simp only [hv] at h
        have : s = v := by simpa using h
        exact ⟨e, rfl, hexp, by rw [hv, this]⟩
      | nonString tag =>
        simp only [hv] at h
        exact Option.noConfusion h

/-- On a hit of the search-category key, `Search` returns the cached response
verbatim, leaves the cache untouched and issues no outbound call, for every
upstream and limit. -/
theorem search_hit_aux (st : Store) (up : Upstream) (now : Nat) (query : String)
    (limit : Nat) (cached : SearchResponse)
    (hhit : Cache.getJSON st (Cache.getWikiSearchKey (normalizeQuery query)) now = some cached) :
    search st up now query limit = (Except.ok cached, st, []) := by
  rw [search]
  simp only [hhit]

/-- On a miss followed by a successful upstream search, `Search` converts,
enriches, assembles and stores: the explicit unfolding. -/
theorem search_miss_aux (st : Store) (up : Upstream) (now : Nat) (query : String)
    (limit : Nat) (api : WikiAPIResponse)
    (hmiss : Cache.getJSON st (Cache.getWikiSearchKey (normalizeQuery query)) now = none)
    (hok : up.searchOutcome query limit = Except.ok api) :
    search st up now query limit =
      (let enriched := enrichResults up now st (api.search.map convertItem)
      let resp : SearchResponse :=
        { Query := query
          Results := enriched.1
          Total := enriched.1.length
          SearchedAt := now }
      (Except.ok resp,
       Cache.setJSON enriched.2.1 (Cache.getWikiSearchKey (normalizeQuery query))
         resp now Cache.WikiDataTTL,
       Call.searchReq query limit :: enriched.2.2)) := by
  rw [search]
  simp only [hmiss, performSearch, hok]
  rfl

/-- Result component of a miss-then-success run of `Search`. -/
theorem search_miss_result (st : Store) (up : Upstream) (now : Nat) (query : String)
    (limit : Nat) (api : WikiAPIResponse)
    (hmiss : Cache.getJSON st (Cache.getWikiSearchKey (normalizeQuery query)) now = none)
    (hok : up.searchOutcome query limit = Except.ok api) :
    (search st up now query limit).1 = Except.ok
      { Query := query
        Results := (enrichResults up now st (api.search.map convertItem)).1
        Total := (enrichResults up now st (api.search.map convertItem)).1.length
        SearchedAt := now } := by
  rw [search_miss_aux st up now query limit api hmiss hok]

/-- Cache component of a miss-then-success run of `Search`. -/
theorem search_miss_store (st : Store) (up : Upstream) (now : Nat) (query : String)
    (limit : Nat) (api : WikiAPIResponse)
    (hmiss : Cache.getJSON st (Cache.getWikiSearchKey (normalizeQuery query)) now = none)
    (hok : up.searchOutcome query limit = Except.ok api) :
    (search st up now query limit).2.1 = Cache.setJSON
      (enrichResults up now st (api.search.map convertItem)).2.1
      (Cache.getWikiSearchKey (normalizeQuery query))
      { Query := query
        Results := (enrichResults up now st (api.search.map convertItem)).1
        Total := (enrichResults up now st (api.search.map convertItem)).1.length
        SearchedAt := now }
      now Cache.WikiDataTTL := by
  rw [search_miss_aux st up now query limit api hmiss hok]

/-- Call-trace component of a miss-then-success run of `Search`. -/
theorem search_miss_calls (st : Store) (up : Upstream) (now : Nat) (query : String)
    (limit : Nat) (api : WikiAPIResponse)
    (hmiss : Cache.getJSON st (Cache.getWikiSearchKey (normalizeQuery query)) now = none)
    (hok : up.searchOutcome query limit = Except.ok api) :
    (search st up now query limit).2.2 =
      Call.searchReq query limit ::
        (enrichResults up now st (api.search.map convertItem)).2.2 := by
  rw [search_miss_aux st up now query limit api hmiss hok]

/-- Per-result outcome of the enrichment loop: when every pre-existing
page-cache entry for a listed title agrees with the upstream oracle and is
unexpired, each result receives the oracle's extract on success, keeps its
extract on failure, and always receives the canonical URL. -/
theorem enrichResults_spec (up : Upstream) (now : Nat) :
    ∀ (st : Store) (rs : List SearchResult),
      (∀ t, t ∈ rs.map SearchResult.Title → ∀ e,
        Cache.lookup st (Cache.getWikiPageKey t) = some e →
        ∃ v, up.extractOutcome t = Except.ok v ∧ e.val = GoVal.str v ∧ ¬ e.exp < now) →
      (enrichResults up now st rs).1 = rs.map fun r =>
        { r with
          URL := wikiBaseURL ++ "/wiki/" ++ goQueryEscape r.Title
          Extract := match up.extractOutcome r.Title with
            | Except.ok v => v
            | Except.error _ => r.Extract } := by
  intro st rs
  induction rs generalizing st with
  | nil => intro _; rfl
  | cons r rest ih =>
    intro hinv
    rw [enrichResults, List.map_cons]
    have hrestinv : ∀ (st' : Store),
        (∀ t, t ∈ (r :: rest).map SearchResult.Title → ∀ e,
          Cache.lookup st' (Cache.getWikiPageKey t) = some e →
          ∃ v, up.extractOutcome t = Except.ok v ∧ e.val = GoVal.str v ∧ ¬ e.exp < now) →
        (∀ t, t ∈ rest.map SearchResult.Title → ∀ e,
          Cache.lookup st' (Cache.getWikiPageKey t) = some e →
          ∃ v, up.extractOutcome t = Except.ok v ∧ e.val = GoVal.str v ∧ ¬ e.exp < now) := by
      intro st' h t ht
      exact h t (by rw [List.map_cons]; exact List.mem_cons_of_mem _ ht)
    rw [getPageExtract]
    cases hgs : Cache.getString st (Cache.getWikiPageKey r.Title) now with
    | some v =>
      obtain ⟨e, hl, hexp, hval⟩ := getString_eq_some hgs
      obtain ⟨v', hov, hval', -⟩ := hinv r.Title
        (by rw [List.map_cons]; exact List.mem_cons_self _ _) e hl
      have hvv : v' = v := by
        rw [hval] at hval'; injection hval'.symm
      subst hvv
      simp only [hov]
      rw [ih st (hrestinv st hinv)]
    | none =>
      cases hov : up.extractOutcome r.Title with
      | error e =>
        simp only [hov]
        rw [ih st (hrestinv st hinv)]
      | ok v =>
        simp only [hov]
        have hinv' : ∀ t, t ∈ rest.map SearchResult.Title → ∀ e,
            Cache.lookup (Cache.set st (Cache.getWikiPageKey r.Title)
              (GoVal.str v) now Cache.WikiDataTTL) (Cache.getWikiPageKey t) = some e →
            ∃ w, up.extractOutcome t = Except.ok w ∧ e.val = GoVal.str w ∧ ¬ e.exp < now := by
          intro t ht e he
          by_cases hk : Cache.getWikiPageKey r.Title = Cache.getWikiPageKey t
          · have htt : r.Title = t := getWikiPageKey_inj hk
            rw [hk, lookup_set_self] at he
            injection he with he'
            refine ⟨v, ?_, ?_, ?_⟩
            · rw [← htt, hov]
            · rw [← he']
            · rw [← he']; simp
          · rw [lookup_set_other _ _ _ _ _ _ hk] at he
            exact hrestinv st hinv t ht e he
        rw [ih _ hinv']

/-- Retrieving through the JSON path immediately after storing through it
round-trips, as long as the entry has not expired. -/
theorem getJSON_setJSON_self (st : Store) (k : String) (resp : SearchResponse)
    (now ttl now2 : Nat) (h : ¬ now + ttl < now2) :
    Cache.getJSON (Cache.setJSON st k resp now ttl) k now2 = some resp := by
  rw [Cache.getJSON, Cache.setJSON, Cache.get, lookup_set_self]
  simp only [if_neg h]
  exact unmarshal_marshal resp

/-- `getPageExtract` only consults the extract side of the upstream. -/
theorem getPageExtract_congr (st : Store) (up up2 : Upstream) (now : Nat) (title : String)
    (h : up2.extractOutcome = up.extractOutcome) :
    getPageExtract st up2 now title = getPageExtract st up now title := by
  rw [getPageExtract, getPageExtract, h]

/-- The enrichment loop only consults the extract side of the upstream. -/
theorem enrichResults_congr (up up2 : Upstream) (now : Nat)
    (h : up2.extractOutcome = up.extractOutcome) :
    ∀ (st : Store) (rs : List SearchResult),
      enrichResults up2 now st rs = enrichResults up now st rs := by
  intro st rs
  induction rs generalizing st with
  | nil => rfl
  | cons r rest ih =>
    rw [enrichResults, enrichResults, getPageExtract_congr st up up2 now r.Title h, ih]

/-- Both ends of an already-trimmed string are non-space. -/
theorem trimmed_ends {l : List Char} (h : goTrimSpace l = l) :
    (∀ c, l.head? = some c → isGoSpace c = false) ∧
    (∀ c, l.getLast? = some c → isGoSpace c = false) := by
  constructor
  · intro c hc
    rw [← h] at hc
    exact head?_goTrimSpace l c hc
  · intro c hc
    rw [← h] at hc
    exact getLast?_goTrimSpace l c hc

theorem dropWhile_append_all {p : Char → Bool} :
    ∀ {w l : List Char}, (∀ c ∈ w, p c = true) →
      List.dropWhile p (w ++ l) = List.dropWhile p l := by
  intro w
  induction w with
  | nil => intro l _; rfl
  | cons a rest ih =>
    intro l hall
    rw [List.cons_append, List.dropWhile, hall a (List.mem_cons_self _ _)]
    exact ih fun c hc => hall c (List.mem_cons_of_mem _ hc)

theorem dropWhile_all_nil {p : Char → Bool} {w : List Char}
    (hall : ∀ c ∈ w, p c = true) : List.dropWhile p w = [] := by
  have := dropWhile_append_all (l := []) hall
  simpa using this

/-- Trimming strips exactly the all-space padding around an already-trimmed
core. -/
theorem goTrimSpace_sandwich {w1 core w2 : List Char}
    (hw1 : ∀ c ∈ w1, isGoSpace c = true) (hw2 : ∀ c ∈ w2, isGoSpace c = true)
    (hcore : goTrimSpace core = core) :
    goTrimSpace (w1 ++ core ++ w2) = core := by
  obtain ⟨hhead, hlast⟩ := trimmed_ends hcore
  cases hc : core with
  | nil =>
    subst hc
    rw [goTrimSpace, List.append_nil, dropWhile_append_all hw1, dropWhile_all_nil hw2]
    rfl
  | cons c0 rest =>
    rw [← hc]
    have hh : isGoSpace c0 = false := hhead c0 (by rw [hc]; rfl)
    obtain ⟨g0, hg⟩ : ∃ g0, core.getLast? = some g0 := by
      rw [hc]
      have : (c0 :: rest).getLast? ≠ none := by
        have h2 : (c0 :: rest).getLast?.isSome :=
          List.getLast?_isSome.mpr (List.cons_ne_nil c0 rest)
        exact Option.isSome_iff_ne_none.mp h2
      cases hx : (c0 :: rest).getLast? with
      | none => exact absurd hx this
      | some x => exact ⟨x, rfl⟩
    have hgl : isGoSpace g0 = false := hlast g0 hg
    rw [goTrimSpace, List.append_assoc, dropWhile_append_all hw1]
    have hstep1 : List.dropWhile isGoSpace (core ++ w2) = core ++ w2 := by
      apply dropWhile_eq_self_of_head _ hh
      rw [hc, List.cons_append]
      rfl
    rw [hstep1, List.reverse_append]
    have hrevall : ∀ c ∈ w2.reverse, isGoSpace c = true := by
      intro c hcmem
      exact hw2 c (List.mem_reverse.mp hcmem)
    rw [dropWhile_append_all hrevall]
    have hstep2 : List.dropWhile isGoSpace core.reverse = core.reverse := by
      apply dropWhile_eq_self_of_head _ hgl
      rw [List.head?_reverse]
      exact hg
    rw [hstep2, List.reverse_reverse]

/-- Character-wise lower-case equivalence gives equal lower-cased strings. -/
theorem map_goToLower_of_forall₂ {l1 l2 : List Char}
    (h : List.Forall₂ (fun a b => goToLower a = goToLower b) l1 l2) :
    l1.map goToLower = l2.map goToLower := by
  induction h with
  | nil => rfl
  | cons hab _ ih => rw [List.map_cons, List.map_cons, hab, ih]

/-! ## Claims -/

/-- C1: whenever the derived search-category cache key holds a valid
(unexpired, string-typed, deserializable) `SearchResponse`, `Search` returns
that cached response verbatim, issues no upstream search or extract call,
and leaves the cache untouched (no enrichment, no re-validation) — for every
upstream oracle and limit. -/
theorem C1_cache_hit_returns_verbatim (st : Store) (up : Upstream) (now : Nat)
    (query : String) (limit : Nat) (cached : SearchResponse)
    (hhit : Cache.getJSON st (Cache.getWikiSearchKey (normalizeQuery query)) now =
      some cached) :
    search st up now query limit = (Except.ok cached, st, []) :=
  search_hit_aux st up now query limit cached hhit

set_option maxRecDepth 100000 in
set_option maxHeartbeats 2000000 in
/-- C1 witness: the repository's cache-hit test scenario — a response cached
under the "test query" key is returned verbatim with no outbound calls even
though the upstream would fail every request. -/
theorem C1_cache_hit_returns_verbatim_witness :
    Cache.getJSON (Cache.setJSON [] (Cache.getWikiSearchKey "test query") sampleResponse 0 60)
      (Cache.getWikiSearchKey (normalizeQuery "test query")) 0 = some sampleResponse ∧
    search (Cache.setJSON [] (Cache.getWikiSearchKey "test query") sampleResponse 0 60)
      upOffline 0 "test query" 5 =
      (Except.ok sampleResponse,
       Cache.setJSON [] (Cache.getWikiSearchKey "test query") sampleResponse 0 60, []) :=
  ⟨by decide,
   C1_cache_hit_returns_verbatim _ upOffline 0 "test query" 5 sampleResponse (by decide)⟩

set_option maxHeartbeats 2000000 in
/-- C2 counterexample: snippet cleaning is not idempotent — on `"&amp;quot;"`
one pass decodes `&amp;` and thereby manufactures a fresh `&quot;` entity
that only the second pass decodes. -/
theorem C2_cleaning_not_idempotent :
    cleanSnippet "&amp;quot;" = "&quot;" ∧
    cleanSnippet (cleanSnippet "&amp;quot;") = "\"" ∧
    cleanSnippet (cleanSnippet "&amp;quot;") ≠ cleanSnippet "&amp;quot;" := by decide

set_option maxHeartbeats 2000000 in
/-- C2 (amended): snippet cleaning is idempotent on every input whose
cleaned form retains none of the six replaced patterns (the two wrapper
tags and the four HTML entities). -/
theorem C2_cleaning_idempotent_amended (s : String)
    (h1 : containsSub spanOpenTag (cleanSnippet s).data = false)
    (h2 : containsSub spanCloseTag (cleanSnippet s).data = false)
    (h3 : containsSub "&quot;".data (cleanSnippet s).data = false)
    (h4 : containsSub "&amp;".data (cleanSnippet s).data = false)
    (h5 : containsSub "&lt;".data (cleanSnippet s).data = false)
    (h6 : containsSub "&gt;".data (cleanSnippet s).data = false) :
    cleanSnippet (cleanSnippet s) = cleanSnippet s := by
  have hcs : cleanSnippet s = ⟨cleanSnippetL s.data⟩ := rfl
  have hdata : (cleanSnippet s).data = cleanSnippetL s.data := by rw [hcs]
  rw [hdata] at h1 h2 h3 h4 h5 h6
  have h := cleanSnippetL_idem s.data h1 h2 h3 h4 h5 h6
  show (⟨cleanSnippetL (cleanSnippet s).data⟩ : String) = cleanSnippet s
  rw [hdata, h]
  exact hcs.symm

set_option maxRecDepth 100000 in
set_option maxHeartbeats 2000000 in
/-- C2 witness: the repository's own mixed-content test string cleans to
`Dragon Bash & "events"`, which retains no replaced pattern, and a second
pass leaves it unchanged. -/
theorem C2_cleaning_idempotent_amended_witness :
    (containsSub spanOpenTag (cleanSnippet sampleSnippet).data = false ∧
     containsSub spanCloseTag (cleanSnippet sampleSnippet).data = false ∧
     containsSub "&quot;".data (cleanSnippet sampleSnippet).data = false ∧
     containsSub "&amp;".data (cleanSnippet sampleSnippet).data = false ∧
     containsSub "&lt;".data (cleanSnippet sampleSnippet).data = false ∧
     containsSub "&gt;".data (cleanSnippet sampleSnippet).data = false) ∧
    cleanSnippet (cleanSnippet sampleSnippet) = cleanSnippet sampleSnippet :=
  ⟨⟨by decide, by decide, by decide, by decide, by decide, by decide⟩,
   C2_cleaning_idempotent_amended sampleSnippet (by decide) (by decide) (by decide)
     (by decide) (by decide) (by decide)⟩

set_option maxRecDepth 100000 in
set_option maxHeartbeats 2000000 in
/-- C3: the repository's URL-generation test and the spec call for
path-escaping (`Dragon%20Bash`), but `Search` builds the canonical URL with
`url.QueryEscape`, which turns the space into `+`: the assigned URL is
`…/wiki/Dragon+Bash`, not the claimed `…/wiki/Dragon%20Bash`. -/
theorem C3_url_uses_query_escaping :
    (search [] upDragonBash 0 "Dragon Bash" 5).1 = Except.ok
      { Query := "Dragon Bash"
        Results := [{ Title := "Dragon Bash", PageID := 12345, Size := 5000,
                      WordCount := 800, Snippet := "Dragon Bash is a festival",
                      Timestamp := "2023-07-01T12:00:00Z",
                      URL := "https://wiki.guildwars2.com/wiki/Dragon+Bash",
                      Extract := "Dragon Bash is an annual festival in Guild Wars 2." }]
        Total := 1
        SearchedAt := 0 } ∧
    goQueryEscape "Dragon Bash" = "Dragon+Bash" ∧
    goPathEscape "Dragon Bash" = "Dragon%20Bash" ∧
    ("https://wiki.guildwars2.com/wiki/Dragon+Bash" : String) ≠
      "https://wiki.guildwars2.com/wiki/Dragon%20Bash" := by decide

/-- C4: two queries that differ only by letter case and/or surrounding
whitespace (each a whitespace padding of a trimmed core, the cores equal
character-wise up to case) derive the same search cache key — the key under
which `Search` both looks up and stores. -/
theorem C4_key_normalization (q1 q2 : String) (w1 w2 w3 w4 core1 core2 : List Char)
    (hq1 : q1.data = w1 ++ core1 ++ w2) (hq2 : q2.data = w3 ++ core2 ++ w4)
    (hw1 : ∀ c ∈ w1, isGoSpace c = true) (hw2 : ∀ c ∈ w2, isGoSpace c = true)
    (hw3 : ∀ c ∈ w3, isGoSpace c = true) (hw4 : ∀ c ∈ w4, isGoSpace c = true)
    (hc1 : goTrimSpace core1 = core1) (hc2 : goTrimSpace core2 = core2)
    (hcase : List.Forall₂ (fun a b => goToLower a = goToLower b) core1 core2) :
    Cache.getWikiSearchKey (normalizeQuery q1) =
      Cache.getWikiSearchKey (normalizeQuery q2) := by
  have h1 : normalizeQuery q1 = ⟨core1.map goToLower⟩ := by
    rw [normalizeQuery, hq1, goTrimSpace_sandwich hw1 hw2 hc1]
    rfl
  have h2 : normalizeQuery q2 = ⟨core2.map goToLower⟩ := by
    rw [normalizeQuery, hq2, goTrimSpace_sandwich hw3 hw4 hc2]
    rfl
  rw [h1, h2, map_goToLower_of_forall₂ hcase]

/-- C4 witness: `" Dragon BASH"` and `"dragon bash "` derive the same key
`wiki:search:dragon bash`. -/
theorem C4_key_normalization_witness :
    Cache.getWikiSearchKey (normalizeQuery " Dragon BASH") =
      Cache.getWikiSearchKey (normalizeQuery "dragon bash ") ∧
    Cache.getWikiSearchKey (normalizeQuery " Dragon BASH") = "wiki:search:dragon bash" :=
  ⟨C4_key_normalization " Dragon BASH" "dragon bash "
      " ".data [] [] " ".data "Dragon BASH".data "dragon bash".data
      (by decide) (by decide) (by decide) (by decide) (by decide) (by decide)
      (by decide) (by decide) (by decide),
   by decide⟩

/-- C7: under the spec's store semantics, a value stored with TTL `d` is
found while the current time is at most store-time + `d`, and reported
absent as soon as the current time exceeds store-time + `d` — the lookup
itself performs the expiry check (the model has no sweep at all). -/
theorem C7_ttl_live_expiry (st : Store) (k : String) (v : GoVal) (now d t : Nat) :
    (t ≤ now + d → Cache.get (Cache.set st k v now d) k t = some v) ∧
    (now + d < t → Cache.get (Cache.set st k v now d) k t = none) := by
  have hbase : Cache.get (Cache.set st k v now d) k t =
      if now + d < t then none else some v := by
    rw [Cache.get, lookup_set_self]
  constructor
  · intro h
    rw [hbase, if_neg (by omega)]
  · intro h
    rw [hbase, if_pos h]

/-- C7 witness: a value stored at time 0 with TTL 5 is found at time 5 and
absent at time 6. -/
theorem C7_ttl_live_expiry_witness :
    Cache.get (Cache.set [] "k" (GoVal.str "x") 0 5) "k" 5 = some (GoVal.str "x") ∧
    Cache.get (Cache.set [] "k" (GoVal.str "x") 0 5) "k" 6 = none :=
  ⟨(C7_ttl_live_expiry [] "k" (GoVal.str "x") 0 5 5).1 (by decide),
   (C7_ttl_live_expiry [] "k" (GoVal.str "x") 0 5 6).2 (by decide)⟩

/-- C8: `GetJSON` reports `false` (modelled `none`) exactly when the key is
absent, or the entry is expired, or the stored dynamic value is not of
string shape, or unmarshalling the stored text fails — and in each case the
failure is swallowed into the same `none`, indistinguishable from a miss. -/
theorem C8_getJSON_false_conditions (st : Store) (k : String) (now : Nat) :
    Cache.getJSON st k now = none ↔
      Cache.lookup st k = none ∨
      (∃ e, Cache.lookup st k = some e ∧ e.exp < now) ∨
      (∃ e tag, Cache.lookup st k = some e ∧ ¬ e.exp < now ∧
        e.val = GoVal.nonString tag) ∨
      (∃ e text, Cache.lookup st k = some e ∧ ¬ e.exp < now ∧
        e.val = GoVal.str text ∧ unmarshalSearchResponse text = none) := by
  rw [Cache.getJSON, Cache.get]
  cases hl : Cache.lookup st k with
  | none => simp
  | some e =>
    simp only []
    by_cases hexp : e.exp < now
    · rw [if_pos hexp]
      constructor
      · intro _
        exact Or.inr (Or.inl ⟨e, rfl, hexp⟩)
      · intro _
        rfl
    · rw [if_neg hexp]
      cases hval : e.val with
      | str s0 =>
        simp only []
        constructor
        · intro hu
          exact Or.inr (Or.inr (Or.inr ⟨e, s0, rfl, hexp, hval, hu⟩))
        · rintro (h | ⟨e', he', hexp'⟩ | ⟨e', tag, he', hexp', hval'⟩ |
            ⟨e', s', he', hexp', hval', hu⟩)
          · exact Option.noConfusion h
          · injection he' with he''
            subst he''
            exact absurd hexp' hexp
          · injection he' with he''
            subst he''
            rw [hval] at hval'
            exact GoVal.noConfusion hval'
          · injection he' with he''
            subst he''
            rw [hval] at hval'
            injection hval' with hs
            rw [hs]
            exact hu
      | nonString tag =>
        simp only [hval]
        constructor
        · intro _
          exact Or.inr (Or.inr (Or.inl ⟨e, tag, rfl, hexp, hval⟩))
        · intro _
          trivial

set_option maxRecDepth 100000 in
set_option maxHeartbeats 2000000 in
/-- C5 counterexample: a successful extract fetch can itself return an empty
string, so a non-failing result may carry an empty extract too — "exactly
the failing results have an empty extract" fails on that input. -/
theorem C5_empty_extract_not_only_on_failure :
    ((search [] upEmptySuccess 0 "q" 2).1 = Except.ok emptySuccessResponse ∧
     upEmptySuccess.extractOutcome "A" = Except.ok "" ∧
     upEmptySuccess.extractOutcome "B" = Except.error "network error") ∧
    ¬ (∀ r ∈ emptySuccessResponse.Results, r.Extract = "" →
        ∃ e, upEmptySuccess.extractOutcome r.Title = Except.error e) := by
  constructor
  · exact ⟨by decide, by decide, by decide⟩
  · intro hall
    obtain ⟨e, he⟩ := hall
      ⟨"A", 1, 1, 1, "sa", "t", "https://wiki.guildwars2.com/wiki/A", ""⟩
      (by decide) rfl
    have he' : upEmptySuccess.extractOutcome "A" = Except.error e := he
    have hA : upEmptySuccess.extractOutcome "A" = Except.ok "" := by decide
    rw [hA] at he'
    exact Except.noConfusion he'

/-- C5 (amended): when the search succeeds, no page extract is pre-cached
for the returned titles, and every extract the upstream can deliver for
them is non-empty, the returned response pairs off with the decoded
upstream entries one-to-one and in order: every decoded field is preserved,
every result carries the canonical URL, and a result's extract is empty
exactly when its extract fetch fails. -/
theorem C5_enrichment_failure_isolation (st : Store) (up : Upstream) (now : Nat)
    (query : String) (limit : Nat) (api : WikiAPIResponse)
    (hmiss : Cache.getJSON st (Cache.getWikiSearchKey (normalizeQuery query)) now = none)
    (hok : up.searchOutcome query limit = Except.ok api)
    (hnocache : ∀ t ∈ api.search.map WikiSearchItem.title,
      Cache.lookup st (Cache.getWikiPageKey t) = none)
    (hnonempty : ∀ t ∈ api.search.map WikiSearchItem.title,
      extractNonempty up t = true) :
    ∃ resp, (search st up now query limit).1 = Except.ok resp ∧
      List.Forall₂ (fun (r : SearchResult) (item : WikiSearchItem) =>
        r.Title = item.title ∧ r.PageID = item.pageid ∧ r.Size = item.size ∧
        r.WordCount = item.wordcount ∧ r.Snippet = cleanSnippet item.snippet ∧
        r.Timestamp = item.timestamp ∧
        r.URL = wikiBaseURL ++ "/wiki/" ++ goQueryEscape item.title ∧
        (r.Extract = "" ↔ ∃ e, up.extractOutcome item.title = Except.error e))
        resp.Results api.search := by
  refine ⟨_, search_miss_result st up now query limit api hmiss hok, ?_⟩
  show List.Forall₂ _ (enrichResults up now st (api.search.map convertItem)).1 api.search
  rw [enrichResults_spec up now st (api.search.map convertItem) ?hinv]
  case hinv =>
    intro t ht e he
    exfalso
    have hmem : t ∈ api.search.map WikiSearchItem.title := by
      rcases List.mem_map.mp ht with ⟨r, hr, hteq⟩
      rcases List.mem_map.mp hr with ⟨item, hitem, hconv⟩
      have : item.title = t := by rw [← hteq, ← hconv]; rfl
      rw [← this]
      exact List.mem_map_of_mem _ hitem
    rw [hnocache t hmem] at he
    exact Option.noConfusion he
  rw [List.map_map, List.forall₂_map_left_iff]
  apply List.forall₂_same.mpr
  intro item hitem
  have hmem : item.title ∈ api.search.map WikiSearchItem.title :=
    List.mem_map_of_mem _ hitem
  refine ⟨rfl, rfl, rfl, rfl, rfl, rfl, rfl, ?_⟩
  show (match up.extractOutcome item.title with
        | Except.ok v => v
        | Except.error _ => "") = "" ↔
      ∃ e, up.extractOutcome item.title = Except.error e
  cases hov : up.extractOutcome item.title with
  | ok v =>
    constructor
    · intro hveq
      exfalso
      have hne := hnonempty item.title hmem
      simp [extractNonempty, hov] at hne
      exact hne hveq
    · rintro ⟨e, he⟩
      exact Except.noConfusion he
  | error e =>
    exact ⟨fun _ => ⟨e, rfl⟩, fun _ => rfl⟩

set_option maxRecDepth 1000000 in
set_option maxHeartbeats 4000000 in
/-- C5 witness: three decoded results, the extract fetch failing only for
"B"; the response keeps all three in order, with only "B" carrying an empty
extract, and every result carrying the canonical URL. -/
theorem C5_enrichment_failure_isolation_witness :
    ∃ resp, (search [] upOneFailing 0 "q" 3).1 = Except.ok resp ∧
      List.Forall₂ (fun (r : SearchResult) (item : WikiSearchItem) =>
        r.Title = item.title ∧ r.PageID = item.pageid ∧ r.Size = item.size ∧
        r.WordCount = item.wordcount ∧ r.Snippet = cleanSnippet item.snippet ∧
        r.Timestamp = item.timestamp ∧
        r.URL = wikiBaseURL ++ "/wiki/" ++ goQueryEscape item.title ∧
        (r.Extract = "" ↔ ∃ e, upOneFailing.extractOutcome item.title = Except.error e))
        resp.Results
        [{ ns := 0, title := "A", pageid := 1, size := 1, wordcount := 1,
           snippet := "sa", timestamp := "t" },
         { ns := 0, title := "B", pageid := 2, size := 2, wordcount := 2,
           snippet := "sb", timestamp := "t" },
         { ns := 0, title := "C", pageid := 3, size := 3, wordcount := 3,
           snippet := "sc", timestamp := "t" }] :=
  C5_enrichment_failure_isolation [] upOneFailing 0 "q" 3
    { search := [{ ns := 0, title := "A", pageid := 1, size := 1, wordcount := 1,
                   snippet := "sa", timestamp := "t" },
                 { ns := 0, title := "B", pageid := 2, size := 2, wordcount := 2,
                   snippet := "sb", timestamp := "t" },
                 { ns := 0, title := "C", pageid := 3, size := 3, wordcount := 3,
                   snippet := "sc", timestamp := "t" }], totalHits := 3 }
    (by decide) (by decide) (by decide) (by decide)

set_option maxRecDepth 100000 in
set_option maxHeartbeats 2000000 in
/-- C6 counterexample: after a miss on the query "A", the response is stored
under `wiki:search:a` (derived from the normalized query) and nothing is
stored under `wiki:search:A` (the key the original, non-normalized query
would derive); the two keys differ. -/
theorem C6_store_key_not_original :
    Cache.lookup (search [] upNoResults 0 "A" 1).2.1 (Cache.getWikiSearchKey "A") = none ∧
    Cache.lookup (search [] upNoResults 0 "A" 1).2.1
        (Cache.getWikiSearchKey (normalizeQuery "A")) = some
      ⟨"wiki:search:a",
       GoVal.str (marshalSearchResponse
         { Query := "A", Results := [], Total := 0, SearchedAt := 0 }),
       0 + Cache.WikiDataTTL⟩ ∧
    Cache.getWikiSearchKey "A" ≠ Cache.getWikiSearchKey (normalizeQuery "A") := by decide

/-- C6 (amended): after a cache miss and a successful upstream fetch, the
assembled response is stored under the search key derived from the
*normalized* query (the same key the lookup used), with the long-lived wiki
TTL, and the in-memory response is returned regardless of the store
outcome. -/
theorem C6_stores_under_normalized_key (st : Store) (up : Upstream) (now : Nat)
    (query : String) (limit : Nat) (api : WikiAPIResponse)
    (hmiss : Cache.getJSON st (Cache.getWikiSearchKey (normalizeQuery query)) now = none)
    (hok : up.searchOutcome query limit = Except.ok api) :
    ∃ resp, (search st up now query limit).1 = Except.ok resp ∧
      ((search st up now query limit).2.1).head? = some
        ⟨Cache.getWikiSearchKey (normalizeQuery query),
         GoVal.str (marshalSearchResponse resp), now + Cache.WikiDataTTL⟩ := by
  refine ⟨_, search_miss_result st up now query limit api hmiss hok, ?_⟩
  rw [search_miss_store st up now query limit api hmiss hok]
  rfl

set_option maxRecDepth 100000 in
set_option maxHeartbeats 2000000 in
/-- C6 witness: a concrete miss-and-fetch run stores the marshalled response
at the head of the store under the normalized key with the 24-hour TTL. -/
theorem C6_stores_under_normalized_key_witness :
    ∃ resp, (search [] upSingleT 0 " Q " 5).1 = Except.ok resp ∧
      ((search [] upSingleT 0 " Q " 5).2.1).head? = some
        ⟨Cache.getWikiSearchKey (normalizeQuery " Q "),
         GoVal.str (marshalSearchResponse resp), 0 + Cache.WikiDataTTL⟩ :=
  C6_stores_under_normalized_key [] upSingleT 0 " Q " 5
    { search := [{ ns := 0, title := "T", pageid := 1, size := 1, wordcount := 1,
                   snippet := "s", timestamp := "t" }], totalHits := 1 }
    (by decide) (by decide)

/-- C9: in every response `Search` assembles after an upstream fetch, the
`Total` field equals the length of the `Results` sequence; and the decoded
`query.searchinfo.totalhits` value is never used — replacing it by any other
value leaves the entire run unchanged. -/
theorem C9_total_is_result_count (st : Store) (up : Upstream) (now : Nat)
    (query : String) (limit : Nat) (api : WikiAPIResponse)
    (hmiss : Cache.getJSON st (Cache.getWikiSearchKey (normalizeQuery query)) now = none)
    (hok : up.searchOutcome query limit = Except.ok api) :
    (∃ resp, (search st up now query limit).1 = Except.ok resp ∧
      resp.Total = resp.Results.length) ∧
    ∀ (up2 : Upstream) (th : Nat),
      up2.searchOutcome query limit =
        Except.ok { search := api.search, totalHits := th } →
      up2.extractOutcome = up.extractOutcome →
      search st up2 now query limit = search st up now query limit := by
  constructor
  · exact ⟨_, search_miss_result st up now query limit api hmiss hok, rfl⟩
  · intro up2 th hok2 hext
    rw [search_miss_aux st up2 now query limit _ hmiss hok2,
      search_miss_aux st up now query limit api hmiss hok]
    simp only [enrichResults_congr up up2 now hext]

set_option maxRecDepth 100000 in
set_option maxHeartbeats 2000000 in
/-- C9 witness: with one decoded result, `Total` is 1 whatever the mocked
`totalhits` (1 or 999) says, and the two runs coincide entirely. -/
theorem C9_total_is_result_count_witness :
    (∃ resp, (search [] upSingleT 0 "q" 5).1 = Except.ok resp ∧
      resp.Total = resp.Results.length) ∧
    search [] upSingleT999 0 "q" 5 = search [] upSingleT 0 "q" 5 :=
  have h := C9_total_is_result_count [] upSingleT 0 "q" 5
    { search := [{ ns := 0, title := "T", pageid := 1, size := 1, wordcount := 1,
                   snippet := "s", timestamp := "t" }], totalHits := 1 }
    (by decide) (by decide)
  ⟨h.1, h.2 upSingleT999 999 (by decide) rfl⟩

/-- C10: the search cache key ignores the limit, so once a (normalized)
query's response is cached by a successful run, every later call with the
same normalized query — whatever its limit and whatever the upstream now
answers — returns that cached response with no outbound calls and an
unchanged cache, within the TTL. -/
theorem C10_cached_response_ignores_limit (st : Store) (up up2 : Upstream)
    (now1 now2 : Nat) (query1 query2 : String) (limit1 limit2 : Nat)
    (api : WikiAPIResponse)
    (hmiss : Cache.getJSON st (Cache.getWikiSearchKey (normalizeQuery query1)) now1 = none)
    (hok : up.searchOutcome query1 limit1 = Except.ok api)
    (hnorm : normalizeQuery query2 = normalizeQuery query1)
    (hfresh : ¬ now1 + Cache.WikiDataTTL < now2) :
    ∃ resp, (search st up now1 query1 limit1).1 = Except.ok resp ∧
      search ((search st up now1 query1 limit1).2.1) up2 now2 query2 limit2 =
        (Except.ok resp, (search st up now1 query1 limit1).2.1, []) := by
  refine ⟨_, search_miss_result st up now1 query1 limit1 api hmiss hok, ?_⟩
  rw [search_miss_store st up now1 query1 limit1 api hmiss hok]
  apply search_hit_aux
  rw [hnorm]
  exact getJSON_setJSON_self _ _ _ _ _ _ hfresh

set_option maxRecDepth 1000000 in
set_option maxHeartbeats 4000000 in
/-- C10 witness: after caching a run for query "q" with limit 2, a call with
query " Q " and limit 99 against an upstream that would fail returns the
same response, changes nothing and calls nothing. -/
theorem C10_cached_response_ignores_limit_witness :
    ∃ resp, (search [] upSingleT 0 "q" 2).1 = Except.ok resp ∧
      search ((search [] upSingleT 0 "q" 2).2.1) upOffline 7 " Q " 99 =
        (Except.ok resp, (search [] upSingleT 0 "q" 2).2.1, []) :=
  C10_cached_response_ignores_limit [] upSingleT upOffline 0 7 "q" " Q " 2 99
    { search := [{ ns := 0, title := "T", pageid := 1, size := 1, wordcount := 1,
                   snippet := "s", timestamp := "t" }], totalHits := 1 }
    (by decide) (by decide) (by decide) (by decide)

end GW2
